import Mathlib

/-!
Shallow embedding of the PaperTrail citation engine from src/papertrail.py:
the citation record, the three style formatters (Vancouver, APA, MLA), the
per-field extraction rule chains of MetadataExtractor, and the bibliography
rendering loop, together with theorems settling the specification claims.
Python strings are modelled as Lean `String`, Python dictionaries of
citation fields as a structure whose absent fields are the empty string
(matching the `.get(key, default)` defaults), and the Python string
operations `split`, `strip`, `rstrip`, `join` and `re.search` as
structurally recursive functions over `List Char`, so that every
definition evaluates by kernel reduction.
-/

/-- Python `s.split(sep)` for a one-character separator: splits at every
occurrence, keeping empty pieces; the empty input yields one empty piece. -/
def pySplitChar (sep : Char) : List Char → List (List Char)
  | [] => [[]]
  | c :: rest =>
    if c = sep then [] :: pySplitChar sep rest
    else
      match pySplitChar sep rest with
      | [] => [[c]]
      | w :: ws => (c :: w) :: ws

/-- Python `s.split(sep)` on strings, for the one-character separators the
program uses. -/
def splitOnComma (s : String) : List String :=
  (pySplitChar ',' s.toList).map String.mk

/-- Python `s.strip()`: remove leading and trailing whitespace. -/
def pyStrip (s : String) : String :=
  String.mk (((s.toList.dropWhile Char.isWhitespace).reverse.dropWhile Char.isWhitespace).reverse)

/-- Python `s.rstrip(c)` for a single character: remove every trailing copy
of that character. -/
def pyRstrip (c : Char) (s : String) : String :=
  String.mk ((s.toList.reverse.dropWhile (fun d => d == c)).reverse)

/-- Helper for `pyWords`: the accumulator holds the current word reversed. -/
def pyWordsAux : List Char → List Char → List String
  | acc, [] => if acc.isEmpty then [] else [String.mk acc.reverse]
  | acc, c :: rest =>
    if c.isWhitespace then
      if acc.isEmpty then pyWordsAux [] rest
      else String.mk acc.reverse :: pyWordsAux [] rest
    else pyWordsAux (c :: acc) rest

/-- Python `s.split()` with no argument: the maximal runs of non-whitespace
characters, in order; no empty pieces. -/
def pyWords (s : String) : List String :=
  pyWordsAux [] s.toList

/-- Python `sep.join(l)`. -/
def pyJoin (sep : String) : List String → String
  | [] => ""
  | [x] => x
  | x :: y :: rest => x ++ sep ++ pyJoin sep (y :: rest)

/-- Python `l[-1]` on a list of strings; the empty list gives the empty
string (the program only evaluates it on non-empty lists). -/
def pyLast : List String → String
  | [] => ""
  | [x] => x
  | _ :: y :: rest => pyLast (y :: rest)

/-- Python `l[0]` on a list of strings; the empty list gives the empty
string (the program only evaluates it on non-empty lists). -/
def pyHead (l : List String) : String := l.headD ""

/-- Python `s[0]`; the empty string gives a space (the program only
evaluates it on non-empty strings). -/
def pyFirstChar (s : String) : Char := s.toList.headD ' '

/-- The citation record: one field per key the Python formatters read with
`citation.get(key)`; a missing dictionary key behaves as the empty string. -/
structure Citation where
  title : String := ""
  authors : String := ""
  year : String := ""
  journal : String := ""
  volume : String := ""
  issue : String := ""
  pages : String := ""
  doi : String := ""
  url : String := ""
  source_type : String := ""

/-! ## VancouverFormatter.format_citation -/

/-- One author "First [Middle] Last" in Vancouver form: surname, a space,
then the concatenated uppercase initials of the preceding name parts; a
name without at least two space-separated parts passes through unchanged. -/
def vancouverAuthor (author : String) : String :=
  let name_parts := pyWords author
  if name_parts.length ≥ 2 then
    pyLast name_parts ++ " " ++ String.mk (name_parts.dropLast.map (fun n => (pyFirstChar n).toUpper))
  else author

/-- The Vancouver author segment: formats the first six comma-separated
elements; appends ", et al." when the split list has more than six
elements, a period otherwise. -/
def vancouverAuthorsBlock (s : String) : String :=
  let authors := splitOnComma s
  let formatted := (authors.take 6).map (fun a => vancouverAuthor (pyStrip a))
  if authors.length > 6 then pyJoin ", " formatted ++ ", et al."
  else pyJoin ", " formatted ++ "."

/-- The Vancouver segments after the author segment: title, journal block
(with year, volume, issue, pages and their conditional separators, falling
back to a bare year), then DOI or URL. -/
def vancouverRestParts (c : Citation) : List String :=
  (if c.title = "" then [] else [c.title ++ "."]) ++
  (if c.journal = "" then
    (if c.year = "" then [] else [c.year ++ "."])
   else
    [c.journal
      ++ (if c.year = "" then "" else " " ++ c.year)
      ++ (if c.volume = "" then "" else ";" ++ c.volume)
      ++ (if c.issue = "" then "" else "(" ++ c.issue ++ ")")
      ++ (if c.pages = "" then "" else ":" ++ c.pages)
      ++ "."]) ++
  (if c.doi = "" then
    (if c.url = "" then [] else ["Available from: " ++ c.url])
   else ["doi:" ++ c.doi])

/-- Everything of a Vancouver entry except the leading ordinal label. -/
def vancouverBody (c : Citation) : String :=
  pyJoin " " ((if c.authors = "" then [] else [vancouverAuthorsBlock c.authors]) ++ vancouverRestParts c)

/-- `VancouverFormatter.format_citation`. -/
def vancouverFormat (c : Citation) (index : Nat) : String :=
  Nat.repr index ++ ". " ++ vancouverBody c

/-! ## APAFormatter.format_citation -/

/-- One author "First [Middle] Last" in APA form: surname, comma, then each
preceding name part reduced to an uppercase initial followed by a period;
a name without at least two space-separated parts passes through
unchanged. -/
def apaAuthor (author : String) : String :=
  let name_parts := pyWords author
  if name_parts.length ≥ 2 then
    pyLast name_parts ++ ", "
      ++ (pyJoin ". " (name_parts.dropLast.map (fun n => String.mk [(pyFirstChar n).toUpper])) ++ ".")
  else author

/-- The APA author segment: formats the first twenty comma-separated
elements; over twenty elements renders nineteen, ", ... ", then the last
formatted (that is, the twentieth) element; two to twenty elements join
all but the last with ", " then ", & "; one element passes alone. -/
def apaAuthorsBlock (s : String) : String :=
  let authors := splitOnComma s
  let formatted := (authors.take 20).map (fun a => apaAuthor (pyStrip a))
  if authors.length > 20 then
    pyJoin ", " (formatted.take 19) ++ ", ... " ++ pyLast formatted
  else if formatted.length > 1 then
    pyJoin ", " formatted.dropLast ++ ", & " ++ pyLast formatted
  else pyHead formatted

/-- The APA segments after the author segment: parenthesized year, title,
journal block, then DOI link or URL. -/
def apaRestParts (c : Citation) : List String :=
  (if c.year = "" then [] else ["(" ++ c.year ++ ")."]) ++
  (if c.title = "" then [] else [c.title ++ "."]) ++
  (if c.journal = "" then []
   else
    [c.journal
      ++ (if c.volume = "" then "" else ", " ++ c.volume)
      ++ (if c.issue = "" then "" else "(" ++ c.issue ++ ")")
      ++ (if c.pages = "" then "" else ", " ++ c.pages)
      ++ "."]) ++
  (if c.doi = "" then (if c.url = "" then [] else [c.url])
   else ["https://doi.org/" ++ c.doi])

/-- `APAFormatter.format_citation`; the ordinal argument is ignored. -/
def apaFormat (c : Citation) (_index : Nat) : String :=
  pyJoin " " ((if c.authors = "" then [] else [apaAuthorsBlock c.authors]) ++ apaRestParts c)

/-! ## MLAFormatter.format_citation -/

/-- The MLA author segment: only the first comma-separated element is
rendered, as "Last, First [Middle]."; when the split list has more than
one element the trailing periods are stripped and ", et al." is
appended. -/
def mlaAuthorBlock (s : String) : String :=
  let authors := splitOnComma s
  let first_author := pyStrip (pyHead authors)
  let name_parts := pyWords first_author
  let base :=
    if name_parts.length ≥ 2 then
      pyLast name_parts ++ ", " ++ pyJoin " " name_parts.dropLast ++ "."
    else first_author ++ "."
  if authors.length > 1 then pyRstrip '.' base ++ ", et al." else base

/-- The MLA segments after the author segment: quoted title, journal block
(falling back to a bare year), then DOI or URL. -/
def mlaRestParts (c : Citation) : List String :=
  (if c.title = "" then [] else ["\"" ++ c.title ++ ".\""]) ++
  (if c.journal = "" then
    (if c.year = "" then [] else [c.year ++ "."])
   else
    [c.journal
      ++ (if c.volume = "" then "" else ", vol. " ++ c.volume)
      ++ (if c.issue = "" then "" else ", no. " ++ c.issue)
      ++ (if c.year = "" then "" else ", " ++ c.year)
      ++ (if c.pages = "" then "" else ", pp. " ++ c.pages)
      ++ "."]) ++
  (if c.doi = "" then (if c.url = "" then [] else [c.url ++ "."])
   else ["doi:" ++ c.doi ++ "."])

/-- `MLAFormatter.format_citation`; the ordinal argument is ignored. -/
def mlaFormat (c : Citation) (_index : Nat) : String :=
  pyJoin " " ((if c.authors = "" then [] else [mlaAuthorBlock c.authors]) ++ mlaRestParts c)

/-! ## Bibliography rendering -/

/-- Concatenation of the strings written one after another to the preview
pane or the export file. -/
def concatAll : List String → String
  | [] => ""
  | s :: rest => s ++ concatAll rest

/-- The bibliography rendering loop shared by `preview_bibliography` and
`export_bibliography`: a header line naming the style, a line of eighty
equal signs, a blank line, then each record formatted with its 1-based
ordinal and followed by a blank line. -/
def renderBibliography (format : Citation → Nat → String) (style : String) (records : List Citation) : String :=
  "Bibliography (" ++ style ++ " Style)\n"
    ++ String.mk (List.replicate 80 '=') ++ "\n\n"
    ++ concatAll (records.enum.map (fun p => format p.2 (p.1 + 1) ++ "\n\n"))

/-! ## MetadataExtractor -/

/-- One HTML `meta` tag as far as the extractor inspects it: its optional
`name`, `property` and `content` attributes. -/
structure MetaTag where
  name : Option String := none
  property : Option String := none
  content : Option String := none

/-- Parsed HTML as far as the extractor inspects it: the `meta` tags in
document order and, when a `title` tag is present, its text. -/
structure Soup where
  metas : List MetaTag := []
  titleText : Option String := none

/-- BeautifulSoup `soup.find` on `meta` tags combined with the truthiness
test the code applies to the result: the `content` attribute of the first
matching tag, or the empty string when no tag matches or the matching tag
has no non-empty content. -/
def metaContent (soup : Soup) (p : MetaTag → Bool) : String :=
  match soup.metas.find? p with
  | some t => t.content.getD ""
  | none => ""

/-- The regex alternation `20\d{2}|19\d{2}` tested at the head of the
character list, as `re.search` tries it at one position. -/
def yearAt? (cs : List Char) : Option String :=
  match cs with
  | c0 :: c1 :: c2 :: c3 :: _ =>
    if c0 = '2' ∧ c1 = '0' ∧ c2.isDigit ∧ c3.isDigit then some (String.mk [c0, c1, c2, c3])
    else if c0 = '1' ∧ c1 = '9' ∧ c2.isDigit ∧ c3.isDigit then some (String.mk [c0, c1, c2, c3])
    else none
  | _ => none

/-- The `re.search` position loop for a pattern without look-around: try
the pattern at each position from the left, first success wins. -/
def scanFor (f : List Char → Option String) : List Char → Option String
  | [] => none
  | c :: rest =>
    match f (c :: rest) with
    | some y => some y
    | none => scanFor f rest

/-- A regex word character (the `\b` boundary class): letter, digit or
underscore. -/
def isWordChar (c : Char) : Bool := c.isAlphanum || c = '_'

/-- The regex `\b(20\d{2}|19\d{2})\b` tested at the head of the character
list, given the character immediately before that position. -/
def yearBoundAt? (prev : Option Char) (cs : List Char) : Option String :=
  match yearAt? cs with
  | some y =>
    let okBefore := match prev with
      | none => true
      | some p => !(isWordChar p)
    let okAfter := match cs.drop 4 with
      | [] => true
      | d :: _ => !(isWordChar d)
    if okBefore && okAfter then some y else none
  | none => none

/-- The `re.search` position loop for a pattern whose `\b` needs the
character before the current position. -/
def scanWithPrev (f : Option Char → List Char → Option String) : Option Char → List Char → Option String
  | _, [] => none
  | prev, c :: rest =>
    match f prev (c :: rest) with
    | some y => some y
    | none => scanWithPrev f (some c) rest

/-- `re.search` for `20\d{2}|19\d{2}`, applied to the date meta content. -/
def yearScanPlain (s : String) : Option String := scanFor yearAt? s.toList

/-- `re.search` for `\b(20\d{2}|19\d{2})\b`, applied to the page text. -/
def yearScanText (s : String) : Option String := scanWithPrev yearBoundAt? none s.toList

/-- The regex `10\.\d{4,}/[^\s]+` tested at the head of the character list:
the literal "10.", at least four digits (greedy, so the whole digit run),
a slash, then a non-empty greedy run of non-whitespace characters. -/
def doiAt? (cs : List Char) : Option String :=
  match cs with
  | '1' :: '0' :: '.' :: rest =>
    let ds := rest.takeWhile Char.isDigit
    if ds.length ≥ 4 then
      match rest.drop ds.length with
      | '/' :: rest2 =>
        let sfx := rest2.takeWhile (fun c => !c.isWhitespace)
        if sfx.isEmpty then none
        else some (String.mk ('1' :: '0' :: '.' :: (ds ++ '/' :: sfx)))
      | _ => none
    else none
  | _ => none

/-- `re.search` for `10\.\d{4,}/[^\s]+`, applied to the page text. -/
def doiScan (s : String) : Option String := scanFor doiAt? s.toList

/-- `MetadataExtractor._extract_title`: `og:title` meta property, then
`citation_title` meta name, then the stripped `title` tag text, then the
literal fallback. -/
def extract_title (soup : Soup) : String :=
  let og := metaContent soup (fun t => t.property == some "og:title")
  if og = "" then
    let ct := metaContent soup (fun t => t.name == some "citation_title")
    if ct = "" then
      match soup.titleText with
      | some t => pyStrip t
      | none => "Unknown Title"
    else ct
  else og

/-- `MetadataExtractor._extract_authors`: every non-empty
`citation_author` meta content joined with ", ", else the generic
`author` meta content, else the empty string. -/
def extract_authors (soup : Soup) : String :=
  let authors :=
    ((soup.metas.filter (fun t => t.name == some "citation_author")).map
      (fun t => t.content.getD "")).filter (fun s => s != "")
  if authors.isEmpty then metaContent soup (fun t => t.name == some "author")
  else pyJoin ", " authors

/-- `MetadataExtractor._extract_year`: scan the `citation_publication_date`
meta content with `20\d{2}|19\d{2}`, then the page text with
`\b(20\d{2}|19\d{2})\b`, else the current year (passed in as a value,
standing for `datetime.now().year`). -/
def extract_year (soup : Soup) (html_text currentYear : String) : String :=
  let dc := metaContent soup (fun t => t.name == some "citation_publication_date")
  match (if dc = "" then none else yearScanPlain dc) with
  | some y => y
  | none =>
    match yearScanText html_text with
    | some y => y
    | none => currentYear

/-- `MetadataExtractor._extract_journal`: the `citation_journal_title` meta
content, else the empty string. -/
def extract_journal (soup : Soup) : String :=
  metaContent soup (fun t => t.name == some "citation_journal_title")

/-- `MetadataExtractor._extract_doi`: the `citation_doi` meta content when
non-empty, else the first `10\.\d{4,}/[^\s]+` match in the page text, else
the empty string. -/
def extract_doi (soup : Soup) (html_text : String) : String :=
  let dc := metaContent soup (fun t => t.name == some "citation_doi")
  if dc = "" then
    match doiScan html_text with
    | some d => d
    | none => ""
  else dc

/-- The metadata assembly of `MetadataExtractor.extract_from_url` after a
successful fetch: the extracted fields, the source URL, and source type
"website"; the dictionary carries no volume, issue or pages keys, so those
fields behave as empty strings downstream. -/
def extractMetadata (soup : Soup) (html_text url currentYear : String) : Citation :=
  { url := url
    title := extract_title soup
    authors := extract_authors soup
    year := extract_year soup html_text currentYear
    journal := extract_journal soup
    doi := extract_doi soup html_text
    source_type := "website" }

/-! ## Helper lemmas -/

theorem string_append_empty (s : String) : s ++ "" = s := by
  cases s with
  | mk data =>
    show String.mk (data ++ []) = String.mk data
    rw [List.append_nil]

theorem pyLast_cons_cons (a b : String) (l : List String) :
    pyLast (a :: b :: l) = pyLast (b :: l) := rfl

theorem pyLast_map (f : String → String) :
    ∀ l : List String, l ≠ [] → pyLast (l.map f) = f (pyLast l) := by
  intro l
  induction l with
  | nil => intro h; exact absurd rfl h
  | cons a t ih =>
    intro _
    cases t with
    | nil => rfl
    | cons b t2 =>
      show pyLast (f a :: f b :: t2.map f) = f (pyLast (a :: b :: t2))
      rw [pyLast_cons_cons, pyLast_cons_cons]
      exact ih (List.cons_ne_nil b t2)

theorem dropLast_map_str (f : String → String) :
    ∀ l : List String, (l.map f).dropLast = l.dropLast.map f := by
  intro l
  induction l with
  | nil => rfl
  | cons a t ih =>
    cases t with
    | nil => rfl
    | cons b t2 =>
      show f a :: ((b :: t2).map f).dropLast = f a :: ((b :: t2).dropLast).map f
      rw [ih]

theorem pyLast_take_succ :
    ∀ (l : List String) (n : Nat), n < l.length → pyLast (l.take (n + 1)) = (l.get? n).getD "" := by
  intro l
  induction l with
  | nil => intro n h; exact absurd h (by simp)
  | cons a t ih =>
    intro n h
    cases n with
    | zero =>
      cases t <;> rfl
    | succ m =>
      cases t with
      | nil => exact absurd h (by simp)
      | cons b t2 =>
        show pyLast (a :: b :: t2.take m) = ((b :: t2).get? m).getD ""
        rw [pyLast_cons_cons]
        exact ih m (Nat.lt_of_succ_lt_succ h)

theorem take_of_le_length {α : Type} :
    ∀ (l : List α) (n : Nat), l.length ≤ n → l.take n = l := by
  intro l
  induction l with
  | nil => intro n _; cases n <;> rfl
  | cons a t ih =>
    intro n hn
    cases n with
    | zero => exact absurd hn (Nat.not_succ_le_zero _)
    | succ m =>
      show a :: t.take m = a :: t
      rw [ih m (Nat.le_of_succ_le_succ hn)]

theorem findSome_map {α β γ : Type} (h : α → β) (g : β → Option γ) :
    ∀ l : List α, (l.map h).findSome? g = l.findSome? (fun a => g (h a)) := by
  intro l
  induction l with
  | nil => rfl
  | cons a t ih =>
    cases hg : g (h a) with
    | some b => simp [List.findSome?_cons, hg]
    | none => simp [List.findSome?_cons, hg, ih]

theorem scanFor_eq_findSome (f : List Char → Option String) :
    ∀ cs : List Char,
      scanFor f cs = (List.range cs.length).findSome? (fun n => f (cs.drop n)) := by
  intro cs
  induction cs with
  | nil => rfl
  | cons c rest ih =>
    show (match f (c :: rest) with
          | some y => some y
          | none => scanFor f rest) = _
    rw [List.length_cons, List.range_succ_eq_map, List.findSome?_cons]
    cases hf : f (c :: rest) with
    | some y => simp [List.drop_zero, hf]
    | none =>
      simp only [List.drop_zero, hf, findSome_map, List.drop_succ_cons]
      exact ih

/-- The character just before position `n`, where `prev` is the character
just before position `0`. -/
def posBefore (prev : Option Char) (cs : List Char) : Nat → Option Char
  | 0 => prev
  | n + 1 => cs.get? n

theorem scanWithPrev_eq_findSome (f : Option Char → List Char → Option String) :
    ∀ (cs : List Char) (prev : Option Char),
      scanWithPrev f prev cs
        = (List.range cs.length).findSome? (fun n => f (posBefore prev cs n) (cs.drop n)) := by
  intro cs
  induction cs with
  | nil => intro prev; rfl
  | cons c rest ih =>
    intro prev
    have pz : posBefore prev (c :: rest) 0 = prev := rfl
    have step : List.findSome?
          (fun n => f (posBefore prev (c :: rest) n) (List.drop n (c :: rest)))
          ((List.range rest.length).map Nat.succ)
        = List.findSome? (fun n => f (posBefore (some c) rest n) (rest.drop n))
            (List.range rest.length) := by
      rw [findSome_map]
      refine congrArg (fun g => List.findSome? g (List.range rest.length)) ?_
      funext n
      cases n with
      | zero => rfl
      | succ m => rfl
    show (match f prev (c :: rest) with
          | some y => some y
          | none => scanWithPrev f (some c) rest) = _
    rw [List.length_cons, List.range_succ_eq_map, List.findSome?_cons]
    simp only [pz, List.drop_zero]
    cases hf : f prev (c :: rest) with
    | some y => rfl
    | none => rw [step, ih (some c)]

/-! ## Claim C2 -/

/-- Claim C2, counterexample: on a record with every field empty the
Vancouver formatter returns the ordinal label "1. ", not the empty string
the claim requires; the ordinal label also accompanies the title on
title-only records. -/
theorem vancouver_empty_record_counterexample :
    vancouverFormat {} 1 = "1. " ∧ vancouverFormat {} 1 ≠ "" :=
  ⟨rfl, by decide⟩

/-- Claim C2 as amended: on a record whose authors, year, journal, volume,
issue, pages, doi and url are all empty, APA renders exactly the title
followed by a period, MLA exactly the quoted title, each the empty string
when the title is empty too; Vancouver renders the same title-only content
but always behind its ordinal label, so its result is never empty. -/
theorem formatters_title_only_degradation (c : Citation) (i : Nat)
    (ha : c.authors = "") (hy : c.year = "") (hj : c.journal = "") (hv : c.volume = "")
    (hiss : c.issue = "") (hp : c.pages = "") (hd : c.doi = "") (hu : c.url = "") :
    apaFormat c i = (if c.title = "" then "" else c.title ++ ".")
    ∧ mlaFormat c i = (if c.title = "" then "" else "\"" ++ c.title ++ ".\"")
    ∧ vancouverFormat c i = Nat.repr i ++ ". " ++ (if c.title = "" then "" else c.title ++ ".") := by
  refine ⟨?_, ?_, ?_⟩ <;>
    by_cases ht : c.title = "" <;>
      simp [apaFormat, mlaFormat, vancouverFormat, vancouverBody, apaRestParts,
        mlaRestParts, vancouverRestParts, ha, hy, hj, hv, hiss, hp, hd, hu, ht, pyJoin]

/-- A record carrying only a title. -/
def titleOnlyExample : Citation := { title := "Deep Work" }

/-- Witness for the amended claim C2 at a concrete title-only record. -/
theorem formatters_title_only_degradation_witness :
    apaFormat titleOnlyExample 2 = "Deep Work."
    ∧ mlaFormat titleOnlyExample 2 = "\"Deep Work.\""
    ∧ vancouverFormat titleOnlyExample 2 = "2. Deep Work." := by
  have h := formatters_title_only_degradation titleOnlyExample 2 rfl rfl rfl rfl rfl rfl rfl rfl
  refine ⟨?_, ?_, ?_⟩
  · rw [h.1]; rfl
  · rw [h.2.1]; rfl
  · rw [h.2.2]; rfl

/-! ## Claim C8 -/

/-- Claim C8: rendering an empty record sequence produces exactly the
style header (the "Bibliography (STYLE Style)" line and the line of eighty
equal signs, closed by a blank line) with zero entries, for any formatter
and style name; being a total function, it cannot fail. -/
theorem render_empty_bibliography (format : Citation → Nat → String) (style : String) :
    renderBibliography format style []
      = "Bibliography (" ++ style ++ " Style)\n" ++ String.mk (List.replicate 80 '=') ++ "\n\n" := by
  have h : renderBibliography format style []
      = ("Bibliography (" ++ style ++ " Style)\n" ++ String.mk (List.replicate 80 '=') ++ "\n\n") ++ "" := rfl
  rw [h, string_append_empty]

/-! ## Claim C9 -/

/-- Claim C9: for any record, APA and MLA render the same string at every
ordinal (the ordinal is ignored), while Vancouver renders the ordinal
label followed by an ordinal-independent remainder. -/
theorem ordinal_used_only_by_vancouver (c : Citation) (i j : Nat) :
    apaFormat c i = apaFormat c j
    ∧ mlaFormat c i = mlaFormat c j
    ∧ vancouverFormat c i = Nat.repr i ++ ". " ++ vancouverBody c :=
  ⟨rfl, rfl, rfl⟩

/-! ## Claim C10 -/

/-- Claim C10: the author count driving the truncation and et-al decisions
is the length of the comma-split list including empty elements: six names
with a trailing comma split into seven elements, so Vancouver appends
", et al." instead of a period; one name with a trailing comma splits into
two elements, so MLA appends ", et al." and APA treats the empty second
element as a joined author. -/
theorem author_count_includes_empty_splits :
    (splitOnComma "Ann Smith, Bob Jones, Cal Brown, Dan White, Eve Black, Fay Green,").length = 7
    ∧ vancouverFormat { authors := "Ann Smith, Bob Jones, Cal Brown, Dan White, Eve Black, Fay Green," } 1
        = "1. Smith A, Jones B, Brown C, White D, Black E, Green F, et al."
    ∧ (splitOnComma "John Smith,").length = 2
    ∧ mlaFormat { authors := "John Smith," } 1 = "Smith, John, et al."
    ∧ apaFormat { authors := "John Smith," } 1 = "Smith, J., & " :=
  ⟨rfl, rfl, rfl, rfl, rfl⟩

/-! ## Claim C3 -/

/-- Claim C3: on any record with a non-empty authors string, if the
comma-split list has more than six elements Vancouver renders exactly the
first six formatted author names joined with ", " followed by ", et al.";
with six or fewer it renders all of them joined with ", " followed by a
period; the rest of the entry follows after the ordinal label. -/
theorem vancouver_six_author_truncation (c : Citation) (i : Nat) (h : c.authors ≠ "") :
    ((splitOnComma c.authors).length > 6 →
      vancouverFormat c i = Nat.repr i ++ ". " ++ pyJoin " "
        ((pyJoin ", " (((splitOnComma c.authors).take 6).map (fun a => vancouverAuthor (pyStrip a)))
            ++ ", et al.") :: vancouverRestParts c))
    ∧ ((splitOnComma c.authors).length ≤ 6 →
      vancouverFormat c i = Nat.repr i ++ ". " ++ pyJoin " "
        ((pyJoin ", " ((splitOnComma c.authors).map (fun a => vancouverAuthor (pyStrip a)))
            ++ ".") :: vancouverRestParts c)) := by
  constructor
  · intro h6
    simp only [vancouverFormat, vancouverBody, vancouverAuthorsBlock, if_neg h, h6,
      if_pos, List.singleton_append]
  · intro h6
    have hn : ¬ ((splitOnComma c.authors).length > 6) := Nat.not_lt.mpr h6
    simp only [vancouverFormat, vancouverBody, vancouverAuthorsBlock, if_neg h, hn,
      ite_false, eq_self_iff_true, List.singleton_append,
      take_of_le_length (splitOnComma c.authors) 6 h6]

/-- A record with seven authors. -/
def vancouverExample7 : Citation :=
  { authors := "Al Ba, Ca Da, Ea Fa, Ga Ha, Ia Ja, Ka La, Ma Na" }

/-- A record with two authors. -/
def vancouverExample2 : Citation := { authors := "Al Ba, Ca Da" }

/-- Witness for claim C3 at concrete seven-author and two-author records. -/
theorem vancouver_six_author_truncation_witness :
    vancouverFormat vancouverExample7 1 = "1. Ba A, Da C, Fa E, Ha G, Ja I, La K, et al."
    ∧ vancouverFormat vancouverExample2 2 = "2. Ba A, Da C." := by
  constructor
  · have h := (vancouver_six_author_truncation vancouverExample7 1 (by decide)).1 (by decide)
    rw [h]; rfl
  · have h := (vancouver_six_author_truncation vancouverExample2 2 (by decide)).2 (by decide)
    rw [h]; rfl

/-! ## Claim C4 -/

/-- Claim C4: on any record with a non-empty authors string whose first
comma-element has at least two space-separated name parts, MLA renders
only that first author, as "Last, First [Middle]."; when the comma-split
list has more than one element the trailing period is stripped and
", et al." appended, and no other author appears (the rendered segment
depends only on the first element and the element count). -/
theorem mla_first_author_et_al (c : Citation) (i : Nat) (h : c.authors ≠ "")
    (h2 : (pyWords (pyStrip (pyHead (splitOnComma c.authors)))).length ≥ 2) :
    mlaFormat c i = pyJoin " "
      ((if (splitOnComma c.authors).length > 1 then
          pyRstrip '.' (pyLast (pyWords (pyStrip (pyHead (splitOnComma c.authors)))) ++ ", "
              ++ pyJoin " " (pyWords (pyStrip (pyHead (splitOnComma c.authors)))).dropLast ++ ".")
            ++ ", et al."
        else
          pyLast (pyWords (pyStrip (pyHead (splitOnComma c.authors)))) ++ ", "
            ++ pyJoin " " (pyWords (pyStrip (pyHead (splitOnComma c.authors)))).dropLast ++ ".")
        :: mlaRestParts c) := by
  simp only [mlaFormat, mlaAuthorBlock, if_neg h, h2, if_pos, List.singleton_append]

/-- A record with three authors. -/
def mlaExample3 : Citation := { authors := "John Smith, Jane Doe, Bob Lee" }

/-- Witness for claim C4 at a concrete three-author record. -/
theorem mla_first_author_et_al_witness :
    mlaFormat mlaExample3 1 = "Smith, John, et al." := by
  have h := mla_first_author_et_al mlaExample3 1 (by decide) (by decide)
  rw [h]; rfl

/-! ## Claim C1 -/

/-- A record with twenty-one single-token authors. -/
def apaExample21 : Citation :=
  { authors := "a1, a2, a3, a4, a5, a6, a7, a8, a9, a10, a11, a12, a13, a14, a15, a16, a17, a18, a19, a20, a21" }

/-- Claim C1, counterexample: on a record with twenty-one authors the APA
formatter renders the first nineteen, ", ... ", then the twentieth author
of the list, not the twenty-first (last) author the claim requires. -/
theorem apa_last_author_counterexample :
    apaFormat apaExample21 1
        = "a1, a2, a3, a4, a5, a6, a7, a8, a9, a10, a11, a12, a13, a14, a15, a16, a17, a18, a19, ... a20"
    ∧ apaFormat apaExample21 1
        ≠ "a1, a2, a3, a4, a5, a6, a7, a8, a9, a10, a11, a12, a13, a14, a15, a16, a17, a18, a19, ... a21" :=
  ⟨rfl, by decide⟩

/-- Claim C1 as amended: on any record with a non-empty authors string, if
the comma-split list has more than twenty elements APA renders the first
nineteen formatted author names joined with ", ", then ", ... ", then the
formatted twentieth element (the last retained one, not the last author of
the full list), omitting every later author; with two to twenty elements
it joins all but the last with ", " and appends ", & " plus the last
author. -/
theorem apa_author_list_rendering (c : Citation) (i : Nat) (h : c.authors ≠ "") :
    ((splitOnComma c.authors).length > 20 →
      apaFormat c i = pyJoin " "
        ((pyJoin ", " (((splitOnComma c.authors).take 19).map (fun a => apaAuthor (pyStrip a)))
            ++ ", ... " ++ apaAuthor (pyStrip (((splitOnComma c.authors).get? 19).getD "")))
          :: apaRestParts c))
    ∧ (1 < (splitOnComma c.authors).length → (splitOnComma c.authors).length ≤ 20 →
      apaFormat c i = pyJoin " "
        ((pyJoin ", " (((splitOnComma c.authors).dropLast).map (fun a => apaAuthor (pyStrip a)))
            ++ ", & " ++ apaAuthor (pyStrip (pyLast (splitOnComma c.authors))))
          :: apaRestParts c)) := by
  constructor
  · intro h20
    have hlen : ((splitOnComma c.authors).take 20).length = 20 := by
      rw [List.length_take]
      exact Nat.min_eq_left (Nat.le_of_lt h20)
    have hne : (splitOnComma c.authors).take 20 ≠ [] := by
      intro e
      rw [e] at hlen
      exact absurd hlen (by decide)
    have h19 : 19 < (splitOnComma c.authors).length := Nat.lt_trans (by decide) h20
    have htake : (((splitOnComma c.authors).take 20).map (fun a => apaAuthor (pyStrip a))).take 19
        = ((splitOnComma c.authors).take 19).map (fun a => apaAuthor (pyStrip a)) := by
      rw [List.map_take, List.take_take, List.map_take]
      norm_num
    have hlast : pyLast (((splitOnComma c.authors).take 20).map (fun a => apaAuthor (pyStrip a)))
        = apaAuthor (pyStrip (((splitOnComma c.authors).get? 19).getD "")) := by
      rw [pyLast_map _ _ hne]
      have hts := pyLast_take_succ (splitOnComma c.authors) 19 h19
      rw [show (19 : Nat) + 1 = 20 from rfl] at hts
      rw [hts]
    simp only [apaFormat, apaAuthorsBlock, if_neg h, h20, ite_true, eq_self_iff_true,
      List.singleton_append, htake, hlast]
  · intro h1 h20
    have hn : ¬ ((splitOnComma c.authors).length > 20) := Nat.not_lt.mpr h20
    have hall : (splitOnComma c.authors).take 20 = splitOnComma c.authors :=
      take_of_le_length (splitOnComma c.authors) 20 h20
    have hne : splitOnComma c.authors ≠ [] := by
      intro e
      rw [e] at h1
      exact absurd h1 (by decide)
    have hlm : ((splitOnComma c.authors).map (fun a => apaAuthor (pyStrip a))).length > 1 := by
      rw [List.length_map]
      exact h1
    simp only [apaFormat, apaAuthorsBlock, if_neg h, hn, ite_false, eq_self_iff_true,
      List.singleton_append, hall, hlm, ite_true,
      dropLast_map_str (fun a => apaAuthor (pyStrip a)) (splitOnComma c.authors),
      pyLast_map (fun a => apaAuthor (pyStrip a)) (splitOnComma c.authors) hne]

/-- A record with twenty-two single-token authors. -/
def apaExample22 : Citation :=
  { authors := "b1, b2, b3, b4, b5, b6, b7, b8, b9, b10, b11, b12, b13, b14, b15, b16, b17, b18, b19, b20, b21, b22" }

/-- A record with two authors. -/
def apaExample2 : Citation := { authors := "John Smith, Jane Doe" }

/-- Witness for the amended claim C1 at concrete records with twenty-two
and with two authors. -/
theorem apa_author_list_rendering_witness :
    apaFormat apaExample22 1
        = "b1, b2, b3, b4, b5, b6, b7, b8, b9, b10, b11, b12, b13, b14, b15, b16, b17, b18, b19, ... b20"
    ∧ apaFormat apaExample2 1 = "Smith, J., & Doe, J." := by
  constructor
  · have h := (apa_author_list_rendering apaExample22 1 (by decide)).1 (by decide)
    rw [h]; rfl
  · have h := (apa_author_list_rendering apaExample2 1 (by decide)).2 (by decide) (by decide)
    rw [h]; rfl

/-! ## Claim C5 -/

/-- Claim C5, counterexample: the page-text year scan is not the same
regex as the meta-content scan. On the string "A12019" the meta-content
regex finds "2019" inside the digit run (so as date meta content it
yields year "2019"), but as page text the word-boundary-anchored regex
finds nothing and extraction falls back to the current year. -/
theorem year_text_scan_counterexample :
    extract_year { metas := [], titleText := none } "A12019" "2025" = "2025"
    ∧ extract_year
        { metas := [{ name := some "citation_publication_date", content := some "A12019" }],
          titleText := none } "" "2025" = "2019"
    ∧ yearScanPlain "A12019" = some "2019" :=
  ⟨rfl, rfl, rfl⟩

/-- Claim C5 as amended: year extraction scans the first
citation_publication_date meta content with the unanchored regex
(20dd or 19dd anywhere, even inside a longer digit run), then the full
page text with the word-boundary-anchored variant of that regex, then
falls back to the given current year; each scan returns the match at the
first position in scan order, never a later one. -/
theorem year_extraction_rule_chain (soup : Soup) (text currentYear : String) :
    extract_year soup text currentYear =
      (match
        (if metaContent soup (fun t => t.name == some "citation_publication_date") = "" then none
         else
           (List.range (metaContent soup (fun t => t.name == some "citation_publication_date")).toList.length).findSome?
             (fun n => yearAt?
               ((metaContent soup (fun t => t.name == some "citation_publication_date")).toList.drop n)))
      with
      | some y => y
      | none =>
        match
          (List.range text.toList.length).findSome?
            (fun n => yearBoundAt? (posBefore none text.toList n) (text.toList.drop n))
        with
        | some y => y
        | none => currentYear) := by
  have h1 : ∀ s : String, yearScanPlain s
      = (List.range s.toList.length).findSome? (fun n => yearAt? (s.toList.drop n)) :=
    fun s => scanFor_eq_findSome yearAt? s.toList
  have h2 : ∀ s : String, yearScanText s
      = (List.range s.toList.length).findSome?
          (fun n => yearBoundAt? (posBefore none s.toList n) (s.toList.drop n)) :=
    fun s => scanWithPrev_eq_findSome yearBoundAt? s.toList none
  simp only [extract_year, h1, h2]

/-! ## Claim C6 -/

/-- Claim C6: DOI extraction returns the first citation_doi meta
content when non-empty, else the match of the DOI regex at the first
possible position of the page text with no trimming of trailing
characters, else the empty string; on the body text of the claim it
extracts exactly "10.1000/xyz123", and trailing punctuation glued to a
DOI is kept. -/
theorem doi_extraction_rule_chain :
    (∀ (soup : Soup) (text : String),
      extract_doi soup text =
        (if metaContent soup (fun t => t.name == some "citation_doi") = "" then
          (match (List.range text.toList.length).findSome? (fun n => doiAt? (text.toList.drop n)) with
           | some d => d
           | none => "")
         else metaContent soup (fun t => t.name == some "citation_doi")))
    ∧ extract_doi { metas := [], titleText := none } "... see 10.1000/xyz123 for details"
        = "10.1000/xyz123"
    ∧ extract_doi { metas := [], titleText := none } "see 10.1000/xyz123, trailing kept"
        = "10.1000/xyz123," := by
  refine ⟨fun soup text => ?_, rfl, rfl⟩
  have hd : ∀ s : String, doiScan s
      = (List.range s.toList.length).findSome? (fun n => doiAt? (s.toList.drop n)) :=
    fun s => scanFor_eq_findSome doiAt? s.toList
  simp only [extract_doi, hd]

/-! ## Claim C7 -/

/-- The parsed form of an HTML document whose only recognized tag is a
meta tag with property og:title and content "X". -/
def soupOgTitle : Soup :=
  { metas := [{ property := some "og:title", content := some "X" }], titleText := none }

/-- The raw text of that document (no year-like or DOI-like tokens). -/
def htmlOgTitle : String :=
  "<html><head><meta property=\"og:title\" content=\"X\"></head><body>no numbers here</body></html>"

/-- Claim C7: extraction from a document containing only an og:title meta
tag with content "X" yields title "X", empty authors, journal and doi,
the current year as year, source type "website", and the source URL. -/
theorem og_title_roundtrip (url y : String) :
    (extractMetadata soupOgTitle htmlOgTitle url y).title = "X"
    ∧ (extractMetadata soupOgTitle htmlOgTitle url y).authors = ""
    ∧ (extractMetadata soupOgTitle htmlOgTitle url y).journal = ""
    ∧ (extractMetadata soupOgTitle htmlOgTitle url y).doi = ""
    ∧ (extractMetadata soupOgTitle htmlOgTitle url y).year = y
    ∧ (extractMetadata soupOgTitle htmlOgTitle url y).source_type = "website"
    ∧ (extractMetadata soupOgTitle htmlOgTitle url y).url = url :=
  ⟨rfl, rfl, rfl, rfl, rfl, rfl, rfl⟩
